import Mathlib

/-!
Verification of the THU RSVP dataset extraction pipeline: a shallow embedding of
the session parser (worker.py), the extraction coordinator and cache logic (thu.py),
and the integrity verifier (utils.py), with theorems about their behaviour.
-/

set_option maxRecDepth 40000

namespace ThuRsvp

/-- A multichannel signal matrix: a list of channel rows, each a list of samples.
Sample values are rationals, idealizing the float arithmetic of the code. -/
abbrev Signal := List (List ℚ)

/-- A transform maps (signal, sample rate) to (transformed signal, new sample rate),
the contract required of the transform argument in thu.py. -/
abbrev Transform := Signal → ℚ → Signal × ℚ

/-- Contents of one session .mat file: fields EEGdata1, EEGdata2, and the two rows each
of trigger_positions and class_labels, as read by worker.py lines 20-38. -/
structure MatContents where
  EEGdata1 : Signal
  EEGdata2 : Signal
  trigger_positions1 : List Nat
  trigger_positions2 : List Nat
  class_labels1 : List Int
  class_labels2 : List Int
deriving DecidableEq

/-- numpy fancy indexing data[channels_to_use]: pick the listed channel rows in order
(worker.py lines 24-25). -/
def selectChannels (idx : List Nat) (m : Signal) : Signal :=
  idx.map (fun i => m.getD i [])

/-- worker.py line 45: converted_onset = int(trial_onset // downsample_factor).
Onsets and rates are nonnegative, so floor division followed by int() is the
natural-number floor of the exact quotient. -/
def convertOnset (onset : Nat) (downsample_factor : ℚ) : Nat :=
  ⌊(onset : ℚ) / downsample_factor⌋₊

/-- worker.py line 46: data[..., converted_onset : converted_onset + trial_duration_samples].
numpy slicing clamps at the end of each row and never raises. -/
def sliceWindow (m : Signal) (start len : Nat) : Signal :=
  m.map (fun ch => (ch.drop start).take len)

/-- The inner loop of worker.py lines 43-46 for one block: one trial per trigger onset,
in trigger order. -/
def blockTrials (d : Signal) (onsets : List Nat) (downsample_factor : ℚ)
    (trial_duration_samples : Nat) : List Signal :=
  onsets.map (fun onset =>
    sliceWindow d (convertOnset onset downsample_factor) trial_duration_samples)

/-- worker.py line 47: trial_labels.append(labels[i]) for each index i of the onset list. -/
def pickLabels (labels : List Int) (n : Nat) : List Int :=
  (List.range n).map (fun i => labels.getD i 0)

/-- worker.py lines 26-30: apply the optional transform to one block's signal. -/
def applyTransform (tf : Option Transform) (d : Signal) (rate : ℚ) : Signal × ℚ :=
  match tf with
  | some t => t d rate
  | none => (d, rate)

/-- worker.py load_trials_one_session: select channels in both blocks, optionally
transform each block (the final sample rate is the one returned by the second call,
as the Python variable is overwritten), shift class labels down by one, and collect
block 1's trials before block 2's, in trigger order within each block. -/
def load_trials_one_session (c : MatContents) (channels : List Nat)
    (original_sample_rate_hz : ℚ) (trial_duration_samples : Nat)
    (transform : Option Transform) : List Signal × List Int :=
  let data1 := selectChannels channels c.EEGdata1
  let data2 := selectChannels channels c.EEGdata2
  let r1 := applyTransform transform data1 original_sample_rate_hz
  let r2 := applyTransform transform data2 original_sample_rate_hz
  let final_sample_rate_hz := r2.2
  let labels1 := c.class_labels1.map (fun x => x - 1)
  let labels2 := c.class_labels2.map (fun x => x - 1)
  let downsample_factor := original_sample_rate_hz / final_sample_rate_hz
  (blockTrials r1.1 c.trigger_positions1 downsample_factor trial_duration_samples ++
     blockTrials r2.1 c.trigger_positions2 downsample_factor trial_duration_samples,
   pickLabels labels1 c.trigger_positions1.length ++
     pickLabels labels2 c.trigger_positions2.length)

/-- thu.py line 56: the original sample rate is 250 Hz. -/
def original_sample_rate_hz : ℚ := 250

/-- thu.py line 58: channels_to_use = np.r_[0:32, 33:42, 43:64]. -/
def channels_to_use : List Nat :=
  List.range 32 ++ List.range' 33 9 ++ List.range' 43 21

/-- thu.py line 59: number of selected channels. -/
def n_channels : Nat := channels_to_use.length

/-- thu.py line 55: n_trials = 64 * 2 * 2 * 40 * 100. -/
def n_trials : Nat := 64 * 2 * 2 * 40 * 100

/-- thu.py lines 64 and 70: int(trial_duration_ms / 1000 * rate), the trial duration in
samples at the given rate; the value is nonnegative so int() truncation is the floor. -/
def durationSamples (trial_duration_ms : Nat) (rate : ℚ) : Nat :=
  ⌊(trial_duration_ms : ℚ) / 1000 * rate⌋₊

/-- thu.py line 70: the per-trial output shape when no transform is given. -/
def output_shape_noTransform (trial_duration_ms : Nat) : Nat × Nat :=
  (n_channels, durationSamples trial_duration_ms original_sample_rate_hz)

/-- A session letter: sub<N>A.mat or sub<N>B.mat. -/
inductive SessionLetter
  | A
  | B
deriving DecidableEq

/-- thu.py lines 177-181: the ordered list of session files, subjects 1..64 ascending,
session A before session B for each subject. -/
def mat_files : List (Nat × SessionLetter) :=
  (List.range 64).flatMap (fun i => [(i + 1, SessionLetter.A), (i + 1, SessionLetter.B)])

/-- The parser configuration shared by all workers (thu.py lines 189-195). -/
structure Config where
  channels : List Nat
  original_sample_rate_hz : ℚ
  trial_duration_samples : Nat
  transform : Option Transform

/-- The worker function applied to one session file, with the file system modelled as a
map from session identifiers to parsed .mat contents. -/
def workerFn (fs : Nat × SessionLetter → MatContents) (cfg : Config)
    (k : Nat × SessionLetter) : List Signal × List Int :=
  load_trials_one_session (fs k) cfg.channels cfg.original_sample_rate_hz
    cfg.trial_duration_samples cfg.transform

/-- The per-session results in submission order. -/
def sessionResults (fs : Nat × SessionLetter → MatContents) (cfg : Config) :
    List (List Signal × List Int) :=
  mat_files.map (workerFn fs cfg)

/-- numpy slice assignment arr[cursor : cursor + len(xs)] = xs, on a list model. -/
def writeRegion {α : Type} (arr : List α) (cursor : Nat) (xs : List α) : List α :=
  arr.take cursor ++ xs ++ arr.drop (cursor + xs.length)

/-- The mutable state of the collection loop in thu.py lines 196-206: the data tensor,
the label vector, and the cursor. -/
structure ExtractState where
  data : List Signal
  labels : List Int
  cursor : Nat

/-- One iteration of the collection loop (thu.py lines 204-206): write the session's
trials and labels at the cursor, then advance the cursor by the trial count. -/
def writeSession (st : ExtractState) (r : List Signal × List Int) : ExtractState :=
  ⟨writeRegion st.data st.cursor r.1,
   writeRegion st.labels st.cursor r.2,
   st.cursor + r.1.length⟩

/-- The collection loop: consume per-session results in delivery order, writing each
into the pre-allocated arrays. -/
def consumeResults (init_data : List Signal) (init_labels : List Int)
    (results : List (List Signal × List Int)) : List Signal × List Int :=
  let st := results.foldl writeSession ⟨init_data, init_labels, 0⟩
  (st.data, st.labels)

/-- The pool computes results in an arbitrary completion order: the buffer records,
in completion order, which submission index produced which result. -/
def poolCompute {α : Type} (order : List Nat) (f : Nat → α) : List (Nat × α) :=
  order.map (fun i => (i, f i))

/-- Pool.imap delivers results in submission order regardless of completion order:
the j-th delivered value is the buffered result for submission index j. -/
def imapDeliver {α : Type} (buffer : List (Nat × α)) (n : Nat) (dflt : α) : List α :=
  (List.range n).map (fun j => ((buffer.find? (fun p => p.1 == j)).getD (j, dflt)).2)

/-- Sequential single-worker extraction (thu.py lines 196-206 with results computed in
submission order). -/
def extract_trials_seq (fs : Nat × SessionLetter → MatContents) (cfg : Config)
    (init_data : List Signal) (init_labels : List Int) : List Signal × List Int :=
  consumeResults init_data init_labels (sessionResults fs cfg)

/-- Parallel extraction: workers complete in the given order, imap delivers in
submission order, and the collection loop consumes the delivered stream. -/
def extract_trials_par (order : List Nat) (fs : Nat × SessionLetter → MatContents)
    (cfg : Config) (init_data : List Signal) (init_labels : List Int) :
    List Signal × List Int :=
  let delivered := imapDeliver
    (poolCompute order (fun i => workerFn fs cfg (mat_files.getD i (1, SessionLetter.A))))
    mat_files.length ([], [])
  consumeResults init_data init_labels delivered

/-- One session's worker call with a shared configuration record. -/
def runSession (c : MatContents) (cfg : Config) : List Signal × List Int :=
  load_trials_one_session c cfg.channels cfg.original_sample_rate_hz
    cfg.trial_duration_samples cfg.transform

/-- Written from the spec's words (section 3, Dataset Tensor Pair, and section 4.2):
the trial/label pairs of one block, one pair per (onset, raw label) entry in trigger
order, the trial sliced at the converted onset and the label the raw code minus one. -/
def blockPairsSpec (d : Signal) (onsets : List Nat) (rawLabels : List Int)
    (downsample_factor : ℚ) (trial_duration_samples : Nat) : List (Signal × Int) :=
  (onsets.zip rawLabels).map (fun p =>
    (sliceWindow d (convertOnset p.1 downsample_factor) trial_duration_samples, p.2 - 1))

/-- Written from the spec's words: one session's ordered pairs, block 1 before block 2,
each block converted with the rate the transform returned for that block. -/
def sessionPairsSpec (c : MatContents) (cfg : Config) : List (Signal × Int) :=
  let r1 := applyTransform cfg.transform (selectChannels cfg.channels c.EEGdata1)
    cfg.original_sample_rate_hz
  let r2 := applyTransform cfg.transform (selectChannels cfg.channels c.EEGdata2)
    cfg.original_sample_rate_hz
  blockPairsSpec r1.1 c.trigger_positions1 c.class_labels1
      (cfg.original_sample_rate_hz / r1.2) cfg.trial_duration_samples ++
    blockPairsSpec r2.1 c.trigger_positions2 c.class_labels2
      (cfg.original_sample_rate_hz / r2.2) cfg.trial_duration_samples

/-- Written from the spec's words: all trial/label pairs ordered by subject ascending,
session A before session B, block 1 before block 2, trigger order within block. -/
def canonicalTrialPairs (fs : Nat × SessionLetter → MatContents) (cfg : Config) :
    List (Signal × Int) :=
  (List.range 64).flatMap (fun s =>
    [SessionLetter.A, SessionLetter.B].flatMap (fun letter =>
      sessionPairsSpec (fs (s + 1, letter)) cfg))

/-- A session file whose fields are all empty, for concrete instantiations. -/
def emptySession : MatContents := ⟨[], [], [], [], [], []⟩

/-- A session file with the published shapes: 64 channel rows and 4000 triggers and
labels per block. -/
def fullSession : MatContents :=
  ⟨List.replicate 64 (List.replicate 1 0), List.replicate 64 (List.replicate 1 0),
   List.replicate 4000 0, List.replicate 4000 0,
   List.replicate 4000 1, List.replicate 4000 2⟩

/-- A small concrete session: 64 channel rows of 130 samples, one trigger per block. -/
def smallSession : MatContents :=
  ⟨List.replicate 64 (List.replicate 130 0), List.replicate 64 (List.replicate 130 0),
   [0], [0], [1], [2]⟩

/-- The configuration of thu.py with trial_duration_ms = 500 and no transform. -/
def noTransformConfig : Config :=
  ⟨channels_to_use, original_sample_rate_hz, durationSamples 500 original_sample_rate_hz, none⟩

/-- utils.py verify_file: false if the file does not exist; true on existence alone when
checksum verification is disabled; otherwise the digest of the contents must equal the
expected checksum. The file system is a map from paths to optional contents, and the
digest an abstract function on contents. -/
def verify_file {π κ : Type} [DecidableEq κ] (hash : κ → κ) (files : π → Option κ)
    (file : π) (sha256sum : κ) (verify_sha256 : Bool) : Bool :=
  match files file with
  | none => false
  | some contents =>
      if !verify_sha256 then true
      else decide (hash contents = sha256sum)

/-- thu.py lines 155-170, can_reuse: both checksum sidecar files must exist, then the
data file and the labels file must each verify against the text of its sidecar. -/
def can_reuse {π κ : Type} [DecidableEq κ] (hash : κ → κ) (files : π → Option κ)
    (trial_data_path trial_data_sha256_path trial_labels_path trial_labels_sha256_path : π)
    (verify_sha256 : Bool) : Bool :=
  match files trial_data_sha256_path, files trial_labels_sha256_path with
  | some dataSha, some labelsSha =>
      if !(verify_file hash files trial_data_path dataSha verify_sha256) then false
      else if !(verify_file hash files trial_labels_path labelsSha verify_sha256) then false
      else true
  | _, _ => false

/-- thu.py line 172: previously extracted files are reused when force_extract is off and
can_reuse holds. -/
def reuseDecision {π κ : Type} [DecidableEq κ] (hash : κ → κ) (files : π → Option κ)
    (trial_data_path trial_data_sha256_path trial_labels_path trial_labels_sha256_path : π)
    (verify_sha256 force_extract : Bool) : Bool :=
  !force_extract &&
    can_reuse hash files trial_data_path trial_data_sha256_path trial_labels_path
      trial_labels_sha256_path verify_sha256

/-! ### Helper lemmas -/

lemma pickLabels_self (ls : List Int) : pickLabels ls ls.length = ls := by
  apply List.ext_getElem
  · simp [pickLabels]
  · intro i h1 h2
    simp [pickLabels, List.getD_eq_getElem?_getD, List.getElem?_eq_getElem h2]

lemma load_trials_fst_length (c : MatContents) (channels : List Nat) (orig : ℚ)
    (dur : Nat) (tf : Option Transform) :
    (load_trials_one_session c channels orig dur tf).1.length =
      c.trigger_positions1.length + c.trigger_positions2.length := by
  simp [load_trials_one_session, blockTrials]

lemma load_trials_snd_length (c : MatContents) (channels : List Nat) (orig : ℚ)
    (dur : Nat) (tf : Option Transform) :
    (load_trials_one_session c channels orig dur tf).2.length =
      c.trigger_positions1.length + c.trigger_positions2.length := by
  simp [load_trials_one_session, pickLabels]

/-! ### Claim theorems -/

/-- C4: the onset conversion performed by the session parser is the integer floor of the
raw onset divided by the downsample factor, also when the factor original_rate/final_rate
is fractional: for factor p/q the converted onset is the natural number (onset * q) / p;
concretely, an onset of 6829 at downsample factor 250/125 = 2 converts to 3414. -/
theorem converted_onset_floor (onset p q : Nat) :
    convertOnset onset ((p : ℚ) / (q : ℚ)) = onset * q / p ∧
    convertOnset 6829 ((250 : ℚ) / (125 : ℚ)) = 3414 := by
  constructor
  · unfold convertOnset
    rw [div_div_eq_mul_div]
    rw [show (onset : ℚ) * (q : ℚ) = ((onset * q : ℕ) : ℚ) by push_cast; ring]
    exact Nat.floor_div_eq_div _ _
  · unfold convertOnset
    rw [show ((250 : ℚ) / 125) = ((2 : ℕ) : ℚ) by norm_num]
    rw [Nat.floor_div_eq_div]

/-- C6: verify_file returns false when the path does not exist; with verification
disabled it returns true exactly when the file exists; with verification enabled it
returns true exactly when the file exists and the digest of its contents equals the
expected checksum. -/
theorem verify_file_characterization {π κ : Type} [DecidableEq κ] (hash : κ → κ)
    (files : π → Option κ) (file : π) (sha256sum : κ) :
    (files file = none → ∀ v, verify_file hash files file sha256sum v = false) ∧
    ((verify_file hash files file sha256sum false = true) ↔ (files file).isSome) ∧
    ((verify_file hash files file sha256sum true = true) ↔
      ∃ c, files file = some c ∧ hash c = sha256sum) := by
  refine ⟨?_, ?_, ?_⟩ <;> rcases h : files file with _ | c <;> simp [verify_file, h]

/-- C6 witness: on a one-file store whose digest function is the identity, verification
with matching checksum succeeds. -/
theorem verify_file_characterization_witness :
    verify_file (fun c : Nat => c) (fun _ : Nat => some 7) 0 7 true = true :=
  (verify_file_characterization (fun c : Nat => c) (fun _ : Nat => some 7) 0 7).2.2.mpr
    ⟨7, rfl, rfl⟩

/-- C5: the cached pair is reused exactly when the force-extract flag is off, the data
file, labels file and both checksum sidecar files exist, and both checksums verify
against the sidecar contents, the checksum comparison being skipped when verification
is disabled. -/
theorem cache_reuse_characterization {π κ : Type} [DecidableEq κ] (hash : κ → κ)
    (files : π → Option κ) (dataPath dataShaPath labelsPath labelsShaPath : π)
    (verify_sha256 force_extract : Bool) :
    (reuseDecision hash files dataPath dataShaPath labelsPath labelsShaPath
        verify_sha256 force_extract = true) ↔
      (force_extract = false ∧
        ∃ dataC labelsC dataSha labelsSha,
          files dataPath = some dataC ∧ files labelsPath = some labelsC ∧
          files dataShaPath = some dataSha ∧ files labelsShaPath = some labelsSha ∧
          (verify_sha256 = true → hash dataC = dataSha ∧ hash labelsC = labelsSha)) := by
  cases force_extract <;>
    rcases hds : files dataShaPath with _ | dSha <;>
    rcases hls : files labelsShaPath with _ | lSha <;>
    rcases hd : files dataPath with _ | dC <;>
    rcases hl : files labelsPath with _ | lC <;>
    cases verify_sha256 <;>
    simp [reuseDecision, can_reuse, verify_file, hds, hls, hd, hl]

/-- C5 witness: with all four files present, matching checksums under the identity
digest, verification enabled and force off, the cache is reused. -/
theorem cache_reuse_characterization_witness :
    reuseDecision (fun c : Nat => c) (fun _ : Nat => some 5) 0 1 2 3 true false = true :=
  (cache_reuse_characterization (fun c : Nat => c) (fun _ : Nat => some 5)
      0 1 2 3 true false).mpr
    ⟨rfl, 5, 5, 5, 5, rfl, rfl, rfl, rfl, fun _ => ⟨rfl, rfl⟩⟩

/-- C10: even with checksum verification disabled, cache reuse requires all four cache
files to exist, and a missing data or labels file forces a rebuild for every flag
combination, because the existence check in verify_file precedes the
verification-disabled short-circuit. -/
theorem reuse_requires_files_when_disabled {π κ : Type} [DecidableEq κ] (hash : κ → κ)
    (files : π → Option κ) (dataPath dataShaPath labelsPath labelsShaPath : π) :
    (can_reuse hash files dataPath dataShaPath labelsPath labelsShaPath false = true ↔
      ((files dataPath).isSome ∧ (files labelsPath).isSome ∧
        (files dataShaPath).isSome ∧ (files labelsShaPath).isSome)) ∧
    (files dataPath = none ∨ files labelsPath = none →
      ∀ verify_sha256 force_extract,
        reuseDecision hash files dataPath dataShaPath labelsPath labelsShaPath
          verify_sha256 force_extract = false) := by
  constructor
  · rcases hds : files dataShaPath with _ | dSha <;>
      rcases hls : files labelsShaPath with _ | lSha <;>
      rcases hd : files dataPath with _ | dC <;>
      rcases hl : files labelsPath with _ | lC <;>
      simp [can_reuse, verify_file, hds, hls, hd, hl]
  · intro hmiss v force
    cases force
    · rcases hds : files dataShaPath with _ | dSha <;>
        rcases hls : files labelsShaPath with _ | lSha <;>
        rcases hmiss with h | h <;>
        cases v <;>
        simp [reuseDecision, can_reuse, verify_file, hds, hls, h]
    · simp [reuseDecision]

/-- C10 witness: with verification disabled and every file present the reuse check
passes, and removing the data file alone forces a rebuild. -/
theorem reuse_requires_files_when_disabled_witness :
    can_reuse (fun c : Nat => c) (fun _ : Nat => some 9) 0 1 2 3 false = true :=
  (reuse_requires_files_when_disabled (fun c : Nat => c) (fun _ : Nat => some 9)
      0 1 2 3).1.mpr ⟨rfl, rfl, rfl, rfl⟩

/-- C9: slicing a window that runs past the end of the signal performs no bounds check
and cannot fail: every channel row is still produced, and each is silently truncated to
the samples that remain, strictly fewer than trial_duration_samples. -/
theorem slice_truncates_silently (m : Signal) (start dur L : Nat)
    (hL : ∀ row ∈ m, row.length = L) (h1 : start ≤ L) (h2 : L < start + dur) :
    (sliceWindow m start dur).length = m.length ∧
    ∀ row ∈ sliceWindow m start dur, row.length = L - start ∧ L - start < dur := by
  constructor
  · simp [sliceWindow]
  · intro row hrow
    rcases List.mem_map.mp hrow with ⟨ch, hch, rfl⟩
    have hc := hL ch hch
    refine ⟨?_, by omega⟩
    simp only [List.length_take, List.length_drop, hc]
    exact Nat.min_eq_right (by omega)

/-- C9 witness: slicing a 5-sample window at sample 2 of a 3-sample channel yields a
1-sample truncated trial and does not fail. -/
theorem slice_truncates_silently_witness :
    (sliceWindow [[(0 : ℚ), 1, 2]] 2 5).length = ([[(0 : ℚ), 1, 2]] : Signal).length ∧
    ∀ row ∈ sliceWindow [[(0 : ℚ), 1, 2]] 2 5, row.length = 3 - 2 ∧ 3 - 2 < 5 :=
  slice_truncates_silently [[(0 : ℚ), 1, 2]] 2 5 3
    (by intro row hr; rw [List.mem_singleton] at hr; subst hr; rfl)
    (by norm_num) (by norm_num)

/-- C8: the channel selection np.r_[0:32, 33:42, 43:64] is exactly the ordered list of
all 64 channel indices with 32 and 42 removed, and the session parser applies this same
selection to both blocks of a session before the transform and before any slicing. -/
theorem channel_selection_fixed_and_uniform (c : MatContents) (orig : ℚ) (dur : Nat)
    (tf : Option Transform) :
    channels_to_use = (List.range 64).filter (fun i => decide (i ≠ 32 ∧ i ≠ 42)) ∧
    (load_trials_one_session c channels_to_use orig dur tf).1 =
      blockTrials (applyTransform tf (selectChannels channels_to_use c.EEGdata1) orig).1
        c.trigger_positions1
        (orig / (applyTransform tf (selectChannels channels_to_use c.EEGdata2) orig).2)
        dur ++
      blockTrials (applyTransform tf (selectChannels channels_to_use c.EEGdata2) orig).1
        c.trigger_positions2
        (orig / (applyTransform tf (selectChannels channels_to_use c.EEGdata2) orig).2)
        dur :=
  ⟨by decide, rfl⟩

/-- C3: the session parser stores raw class label codes minus one, so whenever every raw
code is in {1, 2}, every stored label in the output is 0 (target) or 1 (non-target). -/
theorem labels_shift_and_binary (c : MatContents) (channels : List Nat) (orig : ℚ)
    (dur : Nat) (tf : Option Transform)
    (h1 : c.trigger_positions1.length = c.class_labels1.length)
    (h2 : c.trigger_positions2.length = c.class_labels2.length)
    (hv : ∀ x ∈ c.class_labels1 ++ c.class_labels2, x = 1 ∨ x = 2) :
    (load_trials_one_session c channels orig dur tf).2 =
      c.class_labels1.map (fun x => x - 1) ++ c.class_labels2.map (fun x => x - 1) ∧
    ∀ l ∈ (load_trials_one_session c channels orig dur tf).2, l = 0 ∨ l = 1 := by
  have p1 : pickLabels (c.class_labels1.map fun x => x - 1) c.trigger_positions1.length =
      c.class_labels1.map fun x => x - 1 := by
    rw [h1, ← List.length_map c.class_labels1 (fun x => x - 1)]
    exact pickLabels_self _
  have p2 : pickLabels (c.class_labels2.map fun x => x - 1) c.trigger_positions2.length =
      c.class_labels2.map fun x => x - 1 := by
    rw [h2, ← List.length_map c.class_labels2 (fun x => x - 1)]
    exact pickLabels_self _
  have he : (load_trials_one_session c channels orig dur tf).2 =
      c.class_labels1.map (fun x => x - 1) ++ c.class_labels2.map (fun x => x - 1) := by
    show pickLabels (c.class_labels1.map fun x => x - 1) c.trigger_positions1.length ++
        pickLabels (c.class_labels2.map fun x => x - 1) c.trigger_positions2.length = _
    rw [p1, p2]
  refine ⟨he, ?_⟩
  intro l hl
  rw [he] at hl
  rcases List.mem_append.mp hl with h | h <;>
    rcases List.mem_map.mp h with ⟨x, hx, rfl⟩
  · have := hv x (List.mem_append_left _ hx); omega
  · have := hv x (List.mem_append_right _ hx); omega

/-- C3 witness: a session with 4000 raw labels of 1 in block 1 and 4000 of 2 in block
2 yields stored labels equal to the raw codes minus one, all in {0, 1}. -/
theorem labels_shift_and_binary_witness :
    (load_trials_one_session fullSession channels_to_use original_sample_rate_hz
        125 none).2 =
      fullSession.class_labels1.map (fun x => x - 1) ++
        fullSession.class_labels2.map (fun x => x - 1) ∧
    ∀ l ∈ (load_trials_one_session fullSession channels_to_use original_sample_rate_hz
        125 none).2, l = 0 ∨ l = 1 :=
  labels_shift_and_binary fullSession channels_to_use original_sample_rate_hz 125 none
    (by simp only [fullSession, List.length_replicate])
    (by simp only [fullSession, List.length_replicate])
    (by
      intro x hx
      rcases List.mem_append.mp hx with h | h
      · exact Or.inl (List.eq_of_mem_replicate h)
      · exact Or.inr (List.eq_of_mem_replicate h))

/-- C2: a session whose trigger rows each hold 4000 entries yields exactly 8000 trial
and label pairs (2 blocks times 4000 triggers), and when all 64 x 2 sessions have this
shape the extraction produces 1,024,000 rows in total, exactly the pre-allocated
first dimension n_trials. -/
theorem session_and_total_trial_counts (cfg : Config)
    (fs : Nat × SessionLetter → MatContents)
    (hfs : ∀ k ∈ mat_files, (fs k).trigger_positions1.length = 4000 ∧
      (fs k).trigger_positions2.length = 4000) :
    (∀ c : MatContents, c.trigger_positions1.length = 4000 →
      c.trigger_positions2.length = 4000 →
      (runSession c cfg).1.length = 8000 ∧ (runSession c cfg).2.length = 8000) ∧
    ((sessionResults fs cfg).map (fun r => r.1.length)).sum = 1024000 ∧
    n_trials = 1024000 := by
  refine ⟨?_, ?_, by norm_num [n_trials]⟩
  · intro c hc1 hc2
    constructor
    · rw [runSession, load_trials_fst_length, hc1, hc2]
    · rw [runSession, load_trials_snd_length, hc1, hc2]
  · have hmap : (sessionResults fs cfg).map (fun r => r.1.length) =
        mat_files.map (fun _ => 8000) := by
      rw [sessionResults, List.map_map]
      apply List.map_congr_left
      intro k hk
      have h := hfs k hk
      simp [Function.comp, workerFn, load_trials_fst_length, h.1, h.2]
    rw [hmap, List.map_const', List.sum_replicate, smul_eq_mul]
    rw [show mat_files.length = 128 from by decide]

/-- C2 witness: with every session file carrying 4000 triggers per block, each session
yields 8000 pairs and the 128 sessions together fill exactly the 1,024,000 rows of the
pre-allocated tensor. -/
theorem session_and_total_trial_counts_witness :
    (∀ c : MatContents, c.trigger_positions1.length = 4000 →
      c.trigger_positions2.length = 4000 →
      (runSession c noTransformConfig).1.length = 8000 ∧
        (runSession c noTransformConfig).2.length = 8000) ∧
    ((sessionResults (fun _ => fullSession) noTransformConfig).map
        (fun r => r.1.length)).sum = 1024000 ∧
    n_trials = 1024000 :=
  session_and_total_trial_counts noTransformConfig (fun _ => fullSession)
    (by intro k hk; constructor <;> simp only [fullSession, List.length_replicate])

/-- Rows selected by channel indexing keep their original lengths. -/
lemma selectChannels_row_length (idx : List Nat) (m : Signal) (L : Nat)
    (hlen : ∀ i ∈ idx, i < m.length) (hrow : ∀ row ∈ m, row.length = L) :
    ∀ row ∈ selectChannels idx m, row.length = L := by
  intro row hr
  rcases List.mem_map.mp hr with ⟨i, hi, rfl⟩
  have hlt := hlen i hi
  simp only [List.getD_eq_getElem?_getD, List.getElem?_eq_getElem hlt, Option.getD_some]
  exact hrow _ (List.getElem_mem hlt)

/-- At downsample factor 1 every trial of a block whose windows fit has full duration
and one row per channel of the block signal. -/
lemma blockTrials_shape (d : Signal) (onsets : List Nat) (dur L : Nat)
    (hrow : ∀ row ∈ d, row.length = L) (ho : ∀ o ∈ onsets, o + dur ≤ L) :
    ∀ t ∈ blockTrials d onsets 1 dur, t.length = d.length ∧ ∀ row ∈ t, row.length = dur := by
  intro t ht
  rcases List.mem_map.mp ht with ⟨o, ho', rfl⟩
  have hconv : convertOnset o 1 = o := by simp [convertOnset]
  constructor
  · simp [sliceWindow]
  · intro row hrowt
    rcases List.mem_map.mp hrowt with ⟨ch, hch, rfl⟩
    have hc := hrow ch hch
    have hfit := ho o ho'
    rw [hconv]
    simp only [List.length_take, List.length_drop, hc]
    exact Nat.min_eq_left (by omega)

/-- C7 counterexample: with trial_duration_ms = 500 at 250 Hz and no transform the
trial duration is 125 samples, but an extracted trial of a concrete well-formed session
has 62 channel rows, not 61: the selection removes only 2 of the 64 raw channels. -/
theorem trial_shape_61_counterexample :
    durationSamples 500 original_sample_rate_hz = 125 ∧
    n_channels = 62 ∧
    ((load_trials_one_session smallSession channels_to_use original_sample_rate_hz 125
        none).1.headD []).length = 62 ∧
    (62 : Nat) ≠ 61 := by
  refine ⟨by norm_num [durationSamples, original_sample_rate_hz], by decide, ?_, by decide⟩
  simp only [load_trials_one_session, applyTransform, blockTrials, sliceWindow,
    selectChannels, smallSession, List.map_cons, List.map_nil, List.cons_append,
    List.nil_append, List.headD_cons, List.length_map]
  decide

/-- C7 (amended): with trial_duration_ms = 500 at 250 Hz and no transform the trial
duration is 125 samples and every extracted trial has shape (62, 125): 64 raw channels
minus the 2 excluded ones, for any session with 64 equal-length channel rows per block
whose trigger windows fit inside the signal. -/
theorem trial_shape_62_by_125 (c : MatContents) (L1 L2 : Nat)
    (hc1 : c.EEGdata1.length = 64) (hc2 : c.EEGdata2.length = 64)
    (hr1 : ∀ row ∈ c.EEGdata1, row.length = L1)
    (hr2 : ∀ row ∈ c.EEGdata2, row.length = L2)
    (ho1 : ∀ o ∈ c.trigger_positions1, o + 125 ≤ L1)
    (ho2 : ∀ o ∈ c.trigger_positions2, o + 125 ≤ L2) :
    durationSamples 500 original_sample_rate_hz = 125 ∧
    n_channels = 62 ∧
    ∀ t ∈ (runSession c noTransformConfig).1,
      t.length = 62 ∧ ∀ row ∈ t, row.length = 125 := by
  have hdur : durationSamples 500 original_sample_rate_hz = 125 := by
    norm_num [durationSamples, original_sample_rate_hz]
  refine ⟨hdur, by decide, ?_⟩
  have hone : original_sample_rate_hz / original_sample_rate_hz = (1 : ℚ) := by
    norm_num [original_sample_rate_hz]
  have hrun : (runSession c noTransformConfig).1 =
      blockTrials (selectChannels channels_to_use c.EEGdata1) c.trigger_positions1 1 125 ++
      blockTrials (selectChannels channels_to_use c.EEGdata2) c.trigger_positions2 1 125 := by
    rw [show runSession c noTransformConfig = load_trials_one_session c channels_to_use
      original_sample_rate_hz (durationSamples 500 original_sample_rate_hz) none from rfl]
    rw [hdur]
    simp [load_trials_one_session, applyTransform, hone]
  rw [hrun]
  have hlt1 : ∀ i ∈ channels_to_use, i < c.EEGdata1.length := by rw [hc1]; decide
  have hlt2 : ∀ i ∈ channels_to_use, i < c.EEGdata2.length := by rw [hc2]; decide
  have hs1 := selectChannels_row_length channels_to_use c.EEGdata1 L1 hlt1 hr1
  have hs2 := selectChannels_row_length channels_to_use c.EEGdata2 L2 hlt2 hr2
  have hlen1 : (selectChannels channels_to_use c.EEGdata1).length = 62 := by
    simp only [selectChannels, List.length_map]
    decide
  have hlen2 : (selectChannels channels_to_use c.EEGdata2).length = 62 := by
    simp only [selectChannels, List.length_map]
    decide
  intro t ht
  rcases List.mem_append.mp ht with h | h
  · have := blockTrials_shape _ c.trigger_positions1 125 L1 hs1 ho1 t h
    exact ⟨by rw [this.1, hlen1], this.2⟩
  · have := blockTrials_shape _ c.trigger_positions2 125 L2 hs2 ho2 t h
    exact ⟨by rw [this.1, hlen2], this.2⟩

/-- C7 witness: a concrete session with 64 channel rows of 130 samples and one trigger
at sample 0 per block satisfies the window-fit hypotheses, so its trials have shape
(62, 125). -/
theorem trial_shape_62_by_125_witness :
    durationSamples 500 original_sample_rate_hz = 125 ∧
    n_channels = 62 ∧
    ∀ t ∈ (runSession smallSession noTransformConfig).1,
      t.length = 62 ∧ ∀ row ∈ t, row.length = 125 :=
  trial_shape_62_by_125 smallSession 130 130
    (by simp [smallSession]) (by simp [smallSession])
    (by intro row h; simp only [smallSession] at h
        rw [List.eq_of_mem_replicate h]; simp)
    (by intro row h; simp only [smallSession] at h
        rw [List.eq_of_mem_replicate h]; simp)
    (by intro o h; simp only [smallSession] at h
        rw [List.mem_singleton] at h; subst h; omega)
    (by intro o h; simp only [smallSession] at h
        rw [List.mem_singleton] at h; subst h; omega)

/-- A region write inside the array keeps the array length. -/
lemma writeRegion_length {α : Type} (arr : List α) (cursor : Nat) (xs : List α)
    (h : cursor + xs.length ≤ arr.length) :
    (writeRegion arr cursor xs).length = arr.length := by
  simp [writeRegion]
  omega

/-- The prefix up to the advanced cursor after a region write is the old prefix plus the
written block. -/
lemma writeRegion_take {α : Type} (arr : List α) (cursor : Nat) (xs : List α)
    (h : cursor ≤ arr.length) :
    (writeRegion arr cursor xs).take (cursor + xs.length) = arr.take cursor ++ xs := by
  rw [writeRegion]
  exact List.take_left' (by simp [List.length_take]; omega)

/-- The collection loop started at any cursor writes the concatenation of the result
chunks after the existing prefix, provided the chunks exactly fill the rest of both
arrays and trial and label chunks have equal lengths. -/
lemma foldl_writeSession_go (results : List (List Signal × List Int)) :
    ∀ (d : List Signal) (l : List Int) (cur : Nat),
      (∀ r ∈ results, r.1.length = r.2.length) →
      cur + (results.map (fun r => r.1.length)).sum = d.length →
      l.length = d.length →
      results.foldl writeSession ⟨d, l, cur⟩ =
        ⟨d.take cur ++ (results.map Prod.fst).flatten,
         l.take cur ++ (results.map Prod.snd).flatten,
         d.length⟩ := by
  induction results with
  | nil =>
      intro d l cur hlen htot hl
      have hcur : cur = d.length := by simpa using htot
      subst hcur
      simp only [List.foldl_nil, List.map_nil, List.flatten_nil, List.append_nil,
        List.take_length]
      rw [← hl, List.take_length]
  | cons r rs ih =>
      intro d l cur hlen htot hl
      have hr12 : r.1.length = r.2.length := hlen r (List.mem_cons_self r rs)
      have htot' : cur + (r.1.length + ((rs.map (fun x => x.1.length)).sum)) = d.length := by
        simpa using htot
      have hble : cur + r.1.length ≤ d.length := by omega
      have hcurle : cur ≤ d.length := by omega
      have hcurle2 : cur ≤ l.length := by omega
      have hble2 : cur + r.2.length ≤ l.length := by omega
      rw [List.foldl_cons]
      rw [show writeSession ⟨d, l, cur⟩ r =
        ⟨writeRegion d cur r.1, writeRegion l cur r.2, cur + r.1.length⟩ from rfl]
      rw [ih (writeRegion d cur r.1) (writeRegion l cur r.2) (cur + r.1.length)
        (fun x hx => hlen x (List.mem_cons_of_mem r hx))
        (by rw [writeRegion_length d cur r.1 hble]; omega)
        (by rw [writeRegion_length d cur r.1 hble, writeRegion_length l cur r.2 hble2]
            omega)]
      simp only [ExtractState.mk.injEq]
      refine ⟨?_, ?_, writeRegion_length d cur r.1 hble⟩
      · rw [writeRegion_take d cur r.1 hcurle]
        simp [List.append_assoc]
      · rw [hr12, writeRegion_take l cur r.2 hcurle2]
        simp [List.append_assoc]

/-- When per-session chunks exactly fill the pre-allocated arrays and each session's
trial and label chunks have equal length, consuming them in order concatenates them. -/
lemma consumeResults_eq_flatten (results : List (List Signal × List Int))
    (init_data : List Signal) (init_labels : List Int)
    (hlen : ∀ r ∈ results, r.1.length = r.2.length)
    (htot : (results.map (fun r => r.1.length)).sum = init_data.length)
    (hl : init_labels.length = init_data.length) :
    consumeResults init_data init_labels results =
      ((results.map Prod.fst).flatten, (results.map Prod.snd).flatten) := by
  simp only [consumeResults]
  rw [foldl_writeSession_go results init_data init_labels 0 hlen (by simpa using htot) hl]
  simp

/-- The reordering buffer holds the submitted index next to its computed result, so the
lookup for index j recovers the result computed from j, wherever j completed. -/
lemma find_poolCompute {α : Type} (f : Nat → α) (j : Nat) :
    ∀ order : List Nat, j ∈ order →
      (poolCompute order f).find? (fun p => p.1 == j) = some (j, f j) := by
  intro order
  induction order with
  | nil => intro h; simp at h
  | cons i t ih =>
      intro hj
      by_cases h : i = j
      · subst h
        rw [show poolCompute (i :: t) f = (i, f i) :: poolCompute t f from rfl]
        rw [List.find?_cons_of_pos _ (by simp)]
      · have hjt : j ∈ t := by
          rcases List.mem_cons.mp hj with h1 | h1
          · exact absurd h1.symm h
          · exact h1
        rw [show poolCompute (i :: t) f = (i, f i) :: poolCompute t f from rfl]
        rw [List.find?_cons_of_neg _ (by simp [h])]
        exact ih hjt

/-- In-order delivery of a completion buffer over any permutation of the submission
indices yields the results in submission order. -/
lemma imapDeliver_poolCompute {α : Type} (order : List Nat) (n : Nat) (f : Nat → α)
    (dflt : α) (h : order.Perm (List.range n)) :
    imapDeliver (poolCompute order f) n dflt = (List.range n).map f := by
  unfold imapDeliver
  apply List.map_congr_left
  intro j hj
  rw [find_poolCompute f j order (h.mem_iff.mpr hj)]
  rfl

/-- Indexing a list by the range of its length reproduces a map over the list. -/
lemma range_map_getD {α β : Type} (g : α → β) (dflt : α) (xs : List α) :
    (List.range xs.length).map (fun i => g (xs.getD i dflt)) = xs.map g := by
  apply List.ext_getElem
  · simp
  · intro i h1 h2
    have hx : i < xs.length := by simpa using h2
    simp [List.getD_eq_getElem?_getD, List.getElem?_eq_getElem hx]

/-- Zipping two flattened parallel chunk lists equals flattening the per-chunk zips,
when matching chunks have equal lengths. -/
lemma zip_flatten_eq {α β : Type} :
    ∀ ps : List (List α × List β), (∀ r ∈ ps, r.1.length = r.2.length) →
      ((ps.map Prod.fst).flatten).zip ((ps.map Prod.snd).flatten) =
        (ps.map (fun r => r.1.zip r.2)).flatten := by
  intro ps
  induction ps with
  | nil => intro; simp
  | cons r rs ih =>
      intro h
      simp only [List.map_cons, List.flatten_cons]
      rw [List.zip_append (h r (List.mem_cons_self r rs))]
      rw [ih (fun x hx => h x (List.mem_cons_of_mem r hx))]

/-- One block's trials zipped with its picked labels are the spec-side block pairs. -/
lemma blockPairs_zip (d : Signal) (onsets : List Nat) (raw : List Int) (factor : ℚ)
    (dur : Nat) (h : onsets.length = raw.length) :
    (blockTrials d onsets factor dur).zip
        (pickLabels (raw.map fun x => x - 1) onsets.length) =
      blockPairsSpec d onsets raw factor dur := by
  have hp : pickLabels (raw.map fun x => x - 1) onsets.length =
      raw.map fun x => x - 1 := by
    rw [h, ← List.length_map raw (fun x => x - 1)]
    exact pickLabels_self _
  rw [hp, blockTrials, blockPairsSpec, List.zip_map]
  apply List.map_congr_left
  intro p hp'
  cases p
  rfl

/-- One session's trials zipped with its labels are the spec-side session pairs, given
equal trigger and label row lengths and a transform returning the same rate on both
blocks. -/
lemma runSession_zip (c : MatContents) (cfg : Config)
    (h1 : c.trigger_positions1.length = c.class_labels1.length)
    (h2 : c.trigger_positions2.length = c.class_labels2.length)
    (hrate : (applyTransform cfg.transform (selectChannels cfg.channels c.EEGdata1)
        cfg.original_sample_rate_hz).2 =
      (applyTransform cfg.transform (selectChannels cfg.channels c.EEGdata2)
        cfg.original_sample_rate_hz).2) :
    (runSession c cfg).1.zip (runSession c cfg).2 = sessionPairsSpec c cfg := by
  show (blockTrials _ c.trigger_positions1 _ cfg.trial_duration_samples ++
      blockTrials _ c.trigger_positions2 _ cfg.trial_duration_samples).zip
      (pickLabels (c.class_labels1.map fun x => x - 1) c.trigger_positions1.length ++
       pickLabels (c.class_labels2.map fun x => x - 1) c.trigger_positions2.length) =
    sessionPairsSpec c cfg
  rw [List.zip_append (by simp [blockTrials, pickLabels])]
  rw [blockPairs_zip _ _ _ _ _ h1, blockPairs_zip _ _ _ _ _ h2, sessionPairsSpec]
  rw [hrate]

/-- Concatenating the spec-side session pair lists over the session file order yields
the canonical subject-ascending, A-before-B ordering. -/
lemma flatten_sessionPairs (fs : Nat × SessionLetter → MatContents) (cfg : Config) :
    (mat_files.map (fun k => sessionPairsSpec (fs k) cfg)).flatten =
      canonicalTrialPairs fs cfg := by
  rw [canonicalTrialPairs, mat_files, ← List.flatMap_def, List.flatMap_assoc]
  simp

/-- C1: with the same session files and configuration, parallel extraction delivers the
same (data, labels) pair as sequential single-worker extraction for every worker
completion order, and in the result row i and label i come from the same trial, ordered
by subject ascending, then session A before B, then block 1 before block 2, then
trigger order within block. -/
theorem extraction_parallel_eq_sequential_and_canonical
    (fs : Nat × SessionLetter → MatContents) (cfg : Config) (order : List Nat)
    (hperm : order.Perm (List.range mat_files.length))
    (init_data : List Signal) (init_labels : List Int)
    (htot : ((sessionResults fs cfg).map (fun r => r.1.length)).sum = init_data.length)
    (hlab : init_labels.length = init_data.length)
    (hlen : ∀ k ∈ mat_files,
      (fs k).trigger_positions1.length = (fs k).class_labels1.length ∧
      (fs k).trigger_positions2.length = (fs k).class_labels2.length)
    (hrate : ∀ k ∈ mat_files,
      (applyTransform cfg.transform (selectChannels cfg.channels (fs k).EEGdata1)
          cfg.original_sample_rate_hz).2 =
        (applyTransform cfg.transform (selectChannels cfg.channels (fs k).EEGdata2)
          cfg.original_sample_rate_hz).2) :
    extract_trials_par order fs cfg init_data init_labels =
      extract_trials_seq fs cfg init_data init_labels ∧
    (extract_trials_seq fs cfg init_data init_labels).1.zip
        (extract_trials_seq fs cfg init_data init_labels).2 =
      canonicalTrialPairs fs cfg := by
  have hl' : ∀ r ∈ sessionResults fs cfg, r.1.length = r.2.length := by
    intro r hr
    rcases List.mem_map.mp hr with ⟨k, hk, rfl⟩
    rw [workerFn, load_trials_fst_length, load_trials_snd_length]
  constructor
  · simp only [extract_trials_par, extract_trials_seq]
    rw [imapDeliver_poolCompute order mat_files.length _ _ hperm]
    rw [range_map_getD (workerFn fs cfg) (1, SessionLetter.A) mat_files]
    rfl
  · rw [extract_trials_seq,
      consumeResults_eq_flatten (sessionResults fs cfg) init_data init_labels hl' htot
        hlab]
    rw [zip_flatten_eq _ hl']
    rw [sessionResults, List.map_map]
    have hcongr : List.map
        ((fun r : List Signal × List Int => r.1.zip r.2) ∘ workerFn fs cfg) mat_files =
        List.map (fun k => sessionPairsSpec (fs k) cfg) mat_files :=
      List.map_congr_left (fun k hk =>
        runSession_zip (fs k) cfg (hlen k hk).1 (hlen k hk).2 (hrate k hk))
    rw [hcongr]
    exact flatten_sessionPairs fs cfg

/-- C1 witness: with all sessions empty, an identity completion order, and empty
pre-allocated arrays, parallel equals sequential extraction and the zipped result is
the canonical pair list. -/
theorem extraction_parallel_eq_sequential_and_canonical_witness :
    extract_trials_par (List.range mat_files.length) (fun _ => emptySession)
        noTransformConfig [] [] =
      extract_trials_seq (fun _ => emptySession) noTransformConfig [] [] ∧
    (extract_trials_seq (fun _ => emptySession) noTransformConfig [] []).1.zip
        (extract_trials_seq (fun _ => emptySession) noTransformConfig [] []).2 =
      canonicalTrialPairs (fun _ => emptySession) noTransformConfig :=
  extraction_parallel_eq_sequential_and_canonical (fun _ => emptySession)
    noTransformConfig (List.range mat_files.length) (List.Perm.refl _) [] []
    (by
      have h : (sessionResults (fun _ => emptySession) noTransformConfig).map
          (fun r => r.1.length) = mat_files.map (fun _ => 0) := by
        rw [sessionResults, List.map_map]
        apply List.map_congr_left
        intro k hk
        simp [Function.comp, workerFn, load_trials_fst_length, emptySession]
      rw [h, List.map_const', List.sum_replicate]
      simp)
    rfl
    (by intro k hk; exact ⟨rfl, rfl⟩)
    (by intro k hk; rfl)

end ThuRsvp
